import Mathlib

/-!
Verification of the route-planning and driver-pay workflows of the
sst-dashboard repository.

Modelling conventions (shallow embedding):
* JavaScript strings are modelled as lists of code points (`JStr := List ℕ`);
  the helper `codes` turns a Lean string literal into that form so that
  concrete inputs stay readable.  JavaScript numbers are modelled as exact
  rationals (`ℚ`); `Math.round` becomes `jsRound`.
* The two fetch targets of `RouteModal.confirm` (`/api/geocode` and
  `/api/route-miles`) are modelled by the outcome their handlers produce;
  the `/api/route-miles` handler itself is embedded (`routeMiles`) and the
  OSRM / postcodes.io services appear as explicit outcome parameters.
* Supabase tables are modelled as lists of rows with upsert keyed on the
  natural key, mirroring the `onConflict` clauses in the source.
-/

/-- JavaScript string, as its list of code points. -/
abbrev JStr := List ℕ

/-- Code points of a Lean string literal (readability helper for inputs). -/
def codes (s : String) : JStr := s.data.map Char.toNat

/-- Membership of a code point in the JavaScript regular-expression class
`\s` (`String.prototype.trim` strips the same set). -/
def jsIsSpace (n : ℕ) : Bool :=
  decide (n = 32 ∨ n = 9 ∨ n = 10 ∨ n = 11 ∨ n = 12 ∨ n = 13 ∨
    n = 160 ∨ n = 5760 ∨ (8192 ≤ n ∧ n ≤ 8202) ∨ n = 8232 ∨
    n = 8233 ∨ n = 8239 ∨ n = 8287 ∨ n = 12288 ∨ n = 65279)

/-- ASCII model of `String.prototype.toUpperCase` on one code point. -/
def jsToUpper (n : ℕ) : ℕ := if 97 ≤ n ∧ n ≤ 122 then n - 32 else n

/-- ASCII model of `String.prototype.toLowerCase` on one code point. -/
def jsToLower (n : ℕ) : ℕ := if 65 ≤ n ∧ n ≤ 90 then n + 32 else n

/-- RouteModal `normKey`: `pc.replace(/\s+/g, "").toUpperCase()`. -/
def normKey (pc : JStr) : JStr := (pc.filter fun c => !jsIsSpace c).map jsToUpper

/-- RouteModal `formatUKPostcode`: uppercase, strip spaces, and when the
stripped key is longer than 3 characters insert one space before the final
3 characters (`key.slice(0,-3) + " " + key.slice(-3)`). -/
def formatUKPostcode (pc : JStr) : JStr :=
  if normKey pc = [] then []
  else if (normKey pc).length ≤ 3 then normKey pc
  else (normKey pc).take ((normKey pc).length - 3) ++
    32 :: (normKey pc).drop ((normKey pc).length - 3)

/-- JavaScript `Math.round` on an exact rational: round half toward
positive infinity. -/
def jsRound (x : ℚ) : ℤ := ⌊x + 1/2⌋

/-- A latitude/longitude pair (JavaScript numbers as exact rationals). -/
structure Coord where
  lat : ℚ
  lng : ℚ
  deriving DecidableEq, Repr

/-- One entry of the `coords` array posted to `/api/route-miles`, after
`Number(c?.lat)` / `Number(c?.lng)`: `none` models a value for which
`Number.isFinite` is false (missing field, non-numeric, NaN, infinity). -/
structure RawCoord where
  lat : Option ℚ
  lng : Option ℚ
  deriving DecidableEq, Repr

/-- Outcome of the OSRM `route/v1/driving` fetch as seen by the handler:
an HTTP failure, or a parsed body whose `routes[0].distance` is a number
(`some meters`) or not (`none`). -/
inductive OsrmOutcome where
  | httpErr : OsrmOutcome
  | ok : Option ℚ → OsrmOutcome
  deriving DecidableEq, Repr

/-- Response of the `/api/route-miles` handler: 400 for an invalid coords
array, 502 when OSRM fails or returns no numeric distance, 200 with the
rounded miles value otherwise. -/
inductive RouteMilesResult where
  | badRequest : RouteMilesResult
  | badGateway : RouteMilesResult
  | okMiles : ℚ → RouteMilesResult
  deriving DecidableEq, Repr

/-- The coords that survive the handler's
`.filter((c) => Number.isFinite(c.lat) && Number.isFinite(c.lng))`,
in their original order. -/
def validCoords (raw : List RawCoord) : List Coord :=
  raw.filterMap fun c =>
    match c.lat, c.lng with
    | some a, some b => some ⟨a, b⟩
    | _, _ => none

/-- Meters-per-mile constant `1609.344` of the handler. -/
def metersPerMile : ℚ := 1609344 / 1000

/-- The `POST` handler of `app/api/route-miles/route.ts`.  Returns the
response paired with the coordinate list sent to OSRM (`none` when the
OSRM fetch is never issued). -/
def routeMiles (coordsRaw : List RawCoord) (osrm : OsrmOutcome) :
    RouteMilesResult × Option (List Coord) :=
  if coordsRaw.length < 2 then (.badRequest, none)
  else if (validCoords coordsRaw).length < 2 then (.badRequest, none)
  else
    match osrm with
    | .httpErr => (.badGateway, some (validCoords coordsRaw))
    | .ok none => (.badGateway, some (validCoords coordsRaw))
    | .ok (some meters) =>
        (.okMiles ((jsRound (meters / metersPerMile * 10) : ℚ) / 10),
          some (validCoords coordsRaw))

/-- One item of a postcodes.io bulk-lookup response: the echoed `query`
string and its `result` (`none` for a null result). -/
structure GeoItem where
  query : JStr
  result : Option Coord
  deriving DecidableEq, Repr

/-- The `results` record built by the `POST` handler of
`app/api/geocode/route.ts`: each item is keyed by its normalised query
(skipping empty queries, later items overwriting earlier ones).  An
absent key and an explicit null entry are collapsed to `none`, which is
faithful to the only consumer (`map[pc] == null` and `hit?.lat ?? null`
treat the two alike). -/
def buildGeocodeResults (items : List GeoItem) : JStr → Option Coord :=
  items.foldl
    (fun acc it =>
      if normKey it.query = [] then acc
      else fun k => if k = normKey it.query then it.result else acc k)
    (fun _ => none)

/-- Gregorian leap-year test, as JavaScript `Date` implements it for the
proleptic Gregorian calendar. -/
def isLeap (y : ℤ) : Bool :=
  decide ((y % 4 = 0 ∧ y % 100 ≠ 0) ∨ y % 400 = 0)

/-- Number of days of month `m` (1-based) of year `y`. -/
def daysInMonth (y : ℤ) (m : ℕ) : ℕ :=
  if m = 2 then (if isLeap y then 29 else 28)
  else if m = 4 ∨ m = 6 ∨ m = 9 ∨ m = 11 then 30
  else 31

/-- Shifted month index of the March-based year: March = 0, ..., February = 11. -/
def mpOf (m : ℕ) : ℕ := (m + 9) % 12

/-- Day of the March-based year for shifted month `mp` and day-of-month `d`. -/
def doyOf (mp d : ℕ) : ℕ := (153 * mp + 2) / 5 + d - 1

/-- Day of a 400-year era for year-of-era `yoe` and day-of-year `doy`. -/
def doeOf (yoe doy : ℕ) : ℕ := yoe * 365 + yoe / 4 - yoe / 100 + doy

/-- Days between 1970-01-01 and civil date `(y, m, d)` in the proleptic
Gregorian calendar (the mapping JavaScript `Date` uses between its epoch
value and local calendar fields). -/
def daysFromCivil (y : ℤ) (m d : ℕ) : ℤ :=
  (if m ≤ 2 then y - 1 else y) / 400 * 146097 +
    (doeOf ((if m ≤ 2 then y - 1 else y) % 400).toNat (doyOf (mpOf m) d) : ℤ) -
    719468

/-- Year-of-era recovered from a day-of-era. -/
def yoeFromDoe (doe : ℕ) : ℕ := (doe - doe / 1460 + doe / 36524 - doe / 146096) / 365

/-- Day-of-year recovered from a day-of-era. -/
def doyFromDoe (doe : ℕ) : ℕ :=
  doe - (365 * yoeFromDoe doe + yoeFromDoe doe / 4 - yoeFromDoe doe / 100)

/-- Shifted month recovered from a day-of-year. -/
def mpFromDoy (doy : ℕ) : ℕ := (5 * doy + 2) / 153

/-- Day-of-month recovered from a day-of-year. -/
def dFromDoy (doy : ℕ) : ℕ := doy - (153 * mpFromDoy doy + 2) / 5 + 1

/-- Civil month (1-based) from the shifted month. -/
def mFromMp (mp : ℕ) : ℕ := if mp < 10 then mp + 3 else mp - 9

/-- Day-of-era of the day count `z` since the epoch. -/
def doeOfZ (z : ℤ) : ℕ := ((z + 719468) % 146097).toNat

/-- Civil date `(y, m, d)` of the day count `z` since 1970-01-01 (inverse
of `daysFromCivil`). -/
def civilFromDays (z : ℤ) : ℤ × ℕ × ℕ :=
  ((yoeFromDoe (doeOfZ z) : ℤ) + (z + 719468) / 146097 * 400 +
      (if mFromMp (mpFromDoy (doyFromDoe (doeOfZ z))) ≤ 2 then 1 else 0),
    mFromMp (mpFromDoy (doyFromDoe (doeOfZ z))),
    dFromDoy (doyFromDoe (doeOfZ z)))

/-- Whether year-of-era `yoe + 1` (the calendar year that provides the
February closing the March-based year `yoe`) is a leap year. -/
def leapNext (yoe : ℕ) : Bool :=
  decide (((yoe + 1) % 4 = 0 ∧ (yoe + 1) % 100 ≠ 0) ∨ (yoe + 1) % 400 = 0)

/-- Extra day granted to the March-based year `yoe` by a leap February. -/
def leapBit (yoe : ℕ) : ℕ := if leapNext yoe then 1 else 0

/-- Month lengths in the March-based year (February, `mp = 11`, is given
its leap-year maximum). -/
def mdaysMp (mp : ℕ) : ℕ :=
  if mp = 1 ∨ mp = 3 ∨ mp = 6 ∨ mp = 8 then 30
  else if mp = 11 then 29
  else 31

/-- The parsed fields of a `datetime-local` input string
`"YYYY-MM-DDTHH:mm"` (what `new Date(local)` reads and what
`getFullYear`/`getMonth`/... return, 1-based month). -/
structure LocalDT where
  year : ℤ
  month : ℕ
  day : ℕ
  hour : ℕ
  minute : ℕ
  deriving DecidableEq, Repr

/-- A field record that a `datetime-local` control can actually produce
(the year range keeps JavaScript `String(yyyy)` at exactly 4 digits). -/
def validLocalDT (dt : LocalDT) : Prop :=
  1000 ≤ dt.year ∧ dt.year ≤ 9999 ∧ 1 ≤ dt.month ∧ dt.month ≤ 12 ∧
    1 ≤ dt.day ∧ dt.day ≤ daysInMonth dt.year dt.month ∧
    dt.hour < 24 ∧ dt.minute < 60

instance (dt : LocalDT) : Decidable (validLocalDT dt) := by
  unfold validLocalDT
  infer_instance

/-- Minutes since the epoch of a local field record (on the local clock). -/
def fieldsToMinutes (dt : LocalDT) : ℤ :=
  daysFromCivil dt.year dt.month dt.day * 1440 + dt.hour * 60 + dt.minute

/-- Local field record of a minutes-since-epoch value (on the local
clock), via the civil-calendar mapping of JavaScript `Date`. -/
def minutesToFields (t : ℤ) : LocalDT :=
  { year := (civilFromDays (t / 1440)).1
    month := (civilFromDays (t / 1440)).2.1
    day := (civilFromDays (t / 1440)).2.2
    hour := (t % 1440).toNat / 60
    minute := (t % 1440).toNat % 60 }

/-- RouteModal `localDatetimeToIso`: `new Date(local).toISOString()`.  The
local wall-clock fields are interpreted in the submitting timezone, whose
offset east of UTC is `off` minutes (JavaScript `-getTimezoneOffset()`);
the result is the UTC instant in minutes since the epoch (the instant the
ISO string denotes). -/
def localDatetimeToIso (off : ℤ) (dt : LocalDT) : ℤ := fieldsToMinutes dt - off

/-- The `pad` helper of `isoToLocalDatetime`: `String(n).padStart(2, "0")`
for the field values (< 100) it is applied to. -/
def pad2 (n : ℕ) : JStr := [48 + n / 10 % 10, 48 + n % 10]

/-- JavaScript `String(yyyy)` for a 4-digit year. -/
def year4 (y : ℤ) : JStr :=
  [48 + y.toNat / 1000 % 10, 48 + y.toNat / 100 % 10, 48 + y.toNat / 10 % 10,
    48 + y.toNat % 10]

/-- The `"${yyyy}-${mm}-${dd}T${hh}:${mi}"` template of
`isoToLocalDatetime` (45 is `-`, 84 is `T`, 58 is `:`). -/
def renderLocal (dt : LocalDT) : JStr :=
  year4 dt.year ++ 45 :: (pad2 dt.month ++ 45 :: (pad2 dt.day ++ 84 ::
    (pad2 dt.hour ++ 58 :: pad2 dt.minute)))

/-- RouteModal `isoToLocalDatetime`: read the instant `t` (minutes since
epoch, UTC) back as local calendar fields under offset `off` and format
the `datetime-local` string. -/
def isoToLocalDatetime (off : ℤ) (t : ℤ) : JStr :=
  renderLocal (minutesToFields (t + off))

/-- Day classification stored in `driver_day_entries.status`. -/
inductive DayStatus where
  | work : DayStatus
  | leave : DayStatus
  | off : DayStatus
  | sick : DayStatus
  deriving DecidableEq, Repr

/-- Driver pay type. -/
inductive PayType where
  | hourly : PayType
  | shift : PayType
  deriving DecidableEq, Repr

/-- A `driver_day_entries` row as the page reads it (the generated `id`
and `owner_id` columns play no role in the embedded logic and are
omitted).  `shifts` and `hours` are `Option` to model SQL nulls, which
the page defaults with `?? 1` / `?? 0`. -/
structure DayEntry where
  driver_id : JStr
  entry_date : JStr
  status : DayStatus
  shifts : Option ℚ
  hours : Option ℚ
  notes : Option JStr
  deriving DecidableEq, Repr

/-- A row of the `v_driver_completed_job_days` view (a completed-job
signal): driver and date. -/
structure CompletedJobSignal where
  driver_id : JStr
  entry_date : JStr
  deriving DecidableEq, Repr

/-- The `driver_day_entries` table for the loaded week, as a row list;
the natural key is `(driver_id, entry_date)`. -/
abbrev EntryStore := List DayEntry

/-- JavaScript `String.prototype.trim`. -/
def jsTrim (s : JStr) : JStr :=
  ((s.dropWhile jsIsSpace).reverse.dropWhile jsIsSpace).reverse

/-- driver-pay `isProtectedStatus`: statuses sync never overwrites. -/
def isProtectedStatus (s : DayStatus) : Bool :=
  decide (s = .leave ∨ s = .off ∨ s = .sick)

/-- The sync guard `existing?.notes?.trim().toLowerCase().startsWith("manual:")`. -/
def notesStartsManual (notes : Option JStr) : Bool :=
  match notes with
  | none => false
  | some s => (codes "manual:").isPrefixOf ((jsTrim s).map jsToLower)

/-- The `entriesByDriverDate` lookup: the map is built by inserting every
row in list order, so the last row with the key wins. -/
def getEntry (store : EntryStore) (d t : JStr) : Option DayEntry :=
  store.foldl (fun acc e => if e.driver_id = d ∧ e.entry_date = t then some e else acc)
    none

/-- Supabase `upsert` with `onConflict: "owner_id,driver_id,entry_date"`:
replace the row with the same natural key, or append a new row. -/
def upsertEntry (store : EntryStore) (e : DayEntry) : EntryStore :=
  if store.any fun x => decide (x.driver_id = e.driver_id ∧ x.entry_date = e.entry_date) then
    store.map fun x =>
      if x.driver_id = e.driver_id ∧ x.entry_date = e.entry_date then e else x
  else store ++ [e]

/-- The payload `syncFromCompletedJobs` upserts for a signal. -/
def autoEntry (r : CompletedJobSignal) : DayEntry :=
  { driver_id := r.driver_id
    entry_date := r.entry_date
    status := .work
    shifts := some 1
    hours := none
    notes := some (codes "Auto: from completed job") }

/-- One iteration of the `for (const r of list)` loop in
`syncFromCompletedJobs`.  All skip decisions read `entriesByDriverDate`,
the snapshot `orig` taken before the loop; upserts accumulate in `acc`
(the database state). -/
def syncStep (orig : EntryStore) (acc : EntryStore) (r : CompletedJobSignal) : EntryStore :=
  if r.driver_id = [] ∨ r.entry_date = [] then acc
  else
    match getEntry orig r.driver_id r.entry_date with
    | some existing =>
      if isProtectedStatus existing.status then acc
      else if notesStartsManual existing.notes then acc
      else if existing.status = .work then acc
      else upsertEntry acc (autoEntry r)
    | none => upsertEntry acc (autoEntry r)

/-- driver-pay `syncFromCompletedJobs`, as the merge it performs on the
day-entry store for a given signal list. -/
def syncFromCompletedJobs (store : EntryStore) (sigs : List CompletedJobSignal) : EntryStore :=
  sigs.foldl (syncStep store) store

/-- Result record of `computeDriverWeek`. -/
structure WeekTotals where
  workUnits : ℚ
  leaveUnits : ℚ
  unpaidUnits : ℚ
  hoursWork : ℚ
  hoursLeave : ℚ
  hoursUnpaid : ℚ
  amount : ℚ
  deriving DecidableEq, Repr

/-- One day of the accumulation loop in `computeDriverWeek`. -/
def dayStep (pay_type : PayType) (ent : JStr → Option DayEntry) (t : WeekTotals)
    (day : JStr) : WeekTotals :=
  match ent day with
  | none => t
  | some entry =>
    if entry.status = .work then
      if pay_type = .shift then { t with workUnits := t.workUnits + entry.shifts.getD 1 }
      else { t with hoursWork := t.hoursWork + entry.hours.getD 0 }
    else if entry.status = .leave then
      if pay_type = .shift then { t with leaveUnits := t.leaveUnits + entry.shifts.getD 1 }
      else { t with hoursLeave := t.hoursLeave + entry.hours.getD 0 }
    else
      if pay_type = .shift then { t with unpaidUnits := t.unpaidUnits + 1 }
      else { t with hoursUnpaid := t.hoursUnpaid + entry.hours.getD 0 }

/-- driver-pay `computeDriverWeek` for one driver: `ent` is the week's
`getEntry(d.id, day)` lookup for that driver, `weekDates` the 7 ISO dates
of the Monday-aligned week. -/
def computeDriverWeek (pay_type : PayType) (pay_rate : ℚ) (weekDates : List JStr)
    (ent : JStr → Option DayEntry) : WeekTotals :=
  { weekDates.foldl (dayStep pay_type ent) ⟨0, 0, 0, 0, 0, 0, 0⟩ with
    amount :=
      if pay_type = .shift then
        ((weekDates.foldl (dayStep pay_type ent) ⟨0, 0, 0, 0, 0, 0, 0⟩).workUnits +
          (weekDates.foldl (dayStep pay_type ent) ⟨0, 0, 0, 0, 0, 0, 0⟩).leaveUnits) * pay_rate
      else
        ((weekDates.foldl (dayStep pay_type ent) ⟨0, 0, 0, 0, 0, 0, 0⟩).hoursWork +
          (weekDates.foldl (dayStep pay_type ent) ⟨0, 0, 0, 0, 0, 0, 0⟩).hoursLeave) * pay_rate }

/-- A stop as edited in the modal (`DraftStop`): free-text postcode, name,
and the parsed `datetime-local` value (`none` models an absent or
whitespace-only `planned_time`, which the source maps to `null` after
`.trim()`). -/
structure DraftStop where
  postcode : JStr
  name : Option JStr := none
  planned_time : Option LocalDT := none
  deriving DecidableEq, Repr

/-- A resolved stop (`RouteStopFinal`): 1-based order, pretty postcode,
optional name, optional UTC instant (minutes since epoch), and the
geocoded coordinates. -/
structure RouteStopFinal where
  stop_order : ℕ
  postcode : JStr
  name : Option JStr
  planned_time : Option ℤ
  lat : Option ℚ
  lng : Option ℚ
  deriving DecidableEq, Repr

/-- Outcome of the `/api/geocode` fetch: a non-2xx response, or a 200
response whose `results` record was built from the given postcodes.io
items. -/
inductive GeoOutcome where
  | err : GeoOutcome
  | ok : List GeoItem → GeoOutcome
  deriving DecidableEq, Repr

/-- The distinct failure exits of `RouteModal.confirm`
(each `throw new Error(...)` site). -/
inductive ConfirmError where
  | tooFewStops : ConfirmError
  | geocodeFailed : ConfirmError
  | postcodesNotFound : List JStr → ConfirmError
  | missingCoords : JStr → ConfirmError
  | roadDistanceFailed : ConfirmError
  deriving DecidableEq, Repr

/-- The payload handed to `onConfirm`. -/
structure ConfirmOutput where
  stops : List RouteStopFinal
  totalMiles : Option ℚ
  deriving DecidableEq, Repr

/-- Result of one `confirm` run: an error message or the confirmed payload. -/
inductive ConfirmResult where
  | error : ConfirmError → ConfirmResult
  | ok : ConfirmOutput → ConfirmResult
  deriving DecidableEq, Repr

/-- What one run of `confirm` did: its result, the postcode batch sent to
`/api/geocode` (`none` when that fetch never happens), and the coordinate
list sent to `/api/route-miles` (`none` when that fetch never happens). -/
structure ConfirmTrace where
  result : ConfirmResult
  geoSent : Option (List JStr)
  routeSent : Option (List Coord)
  deriving DecidableEq, Repr

/-- The `postcodes` array of `confirm`:
`allDraft.map((x) => normKey(x.postcode)).filter(Boolean)`. -/
def submittedBatch (drafts : List DraftStop) : List JStr :=
  (drafts.map fun x => normKey x.postcode).filter fun p => !p.isEmpty

/-- The unresolved submitted postcodes:
`postcodes.filter((pc) => map[pc] == null)`. -/
def missingBatch (drafts : List DraftStop) (gmap : JStr → Option Coord) : List JStr :=
  (submittedBatch drafts).filter fun pc => (gmap pc).isNone

/-- The `finalStops` array of `confirm`: original draft order, 1-based
`stop_order`, pretty postcode, converted planned time, and the geocode
hit for the canonical key. -/
def buildFinalStops (off : ℤ) (gmap : JStr → Option Coord)
    (drafts : List DraftStop) : List RouteStopFinal :=
  drafts.enum.map fun p =>
    { stop_order := p.1 + 1
      postcode := formatUKPostcode p.2.postcode
      name := p.2.name
      planned_time := p.2.planned_time.map fun t => localDatetimeToIso off t
      lat := (gmap (normKey (formatUKPostcode p.2.postcode))).map Coord.lat
      lng := (gmap (normKey (formatUKPostcode p.2.postcode))).map Coord.lng }

/-- The coords array `confirm` posts to `/api/route-miles` (`s.lat as
number` / `s.lng as number`; at this point the null check has passed, so
`getD 0` only discharges the `Option`). -/
def stopCoords (stops : List RouteStopFinal) : List Coord :=
  stops.map fun s => ⟨s.lat.getD 0, s.lng.getD 0⟩

/-- `RouteModal.confirm` (the Route Assembler): `off` is the submitting
timezone's offset east of UTC in minutes, `geo` the `/api/geocode`
outcome, `osrm` the OSRM outcome behind `/api/route-miles` (whose handler
is embedded as `routeMiles`). -/
def confirm (off : ℤ) (allDraft : List DraftStop) (geo : GeoOutcome)
    (osrm : OsrmOutcome) : ConfirmTrace :=
  if (submittedBatch allDraft).length < 2 then ⟨.error .tooFewStops, none, none⟩
  else
    match geo with
    | .err => ⟨.error .geocodeFailed, some (submittedBatch allDraft), none⟩
    | .ok items =>
      if missingBatch allDraft (buildGeocodeResults items) ≠ [] then
        ⟨.error (.postcodesNotFound
            ((missingBatch allDraft (buildGeocodeResults items)).map formatUKPostcode)),
          some (submittedBatch allDraft), none⟩
      else
        match (buildFinalStops off (buildGeocodeResults items) allDraft).find?
            (fun s => s.lat.isNone || s.lng.isNone) with
        | some b =>
          ⟨.error (.missingCoords b.postcode), some (submittedBatch allDraft), none⟩
        | none =>
          match (routeMiles
              ((stopCoords (buildFinalStops off (buildGeocodeResults items) allDraft)).map
                fun c => ⟨some c.lat, some c.lng⟩) osrm).1 with
          | .okMiles m =>
            ⟨.ok ⟨buildFinalStops off (buildGeocodeResults items) allDraft, some m⟩,
              some (submittedBatch allDraft),
              some (stopCoords (buildFinalStops off (buildGeocodeResults items) allDraft))⟩
          | _ =>
            ⟨.error .roadDistanceFailed, some (submittedBatch allDraft),
              some (stopCoords (buildFinalStops off (buildGeocodeResults items) allDraft))⟩

/-- Day keys of a Monday-to-Sunday week (opaque date strings). -/
def exShiftWeek : List JStr := [[1], [2], [3], [4], [5], [6], [7]]

/-- The spec example week for a shift driver: Mon work, Tue work,
Wed leave, Thu off, Fri sick, weekend without entries (entries carry the
`shifts` values the page itself writes: 1 for work/leave, 0 for
off/sick). -/
def exShiftEnt : JStr → Option DayEntry := fun dt =>
  if dt = [1] then some ⟨codes "drv1", [1], DayStatus.work, some 1, none, none⟩
  else if dt = [2] then some ⟨codes "drv1", [2], DayStatus.work, some 1, none, none⟩
  else if dt = [3] then some ⟨codes "drv1", [3], DayStatus.leave, some 1, none, none⟩
  else if dt = [4] then some ⟨codes "drv1", [4], DayStatus.off, some 0, none, none⟩
  else if dt = [5] then some ⟨codes "drv1", [5], DayStatus.sick, some 0, none, none⟩
  else none

/-- A week containing a single work entry whose recorded `shifts` is 2. -/
def cexShiftEnt : JStr → Option DayEntry := fun dt =>
  if dt = [1] then some ⟨codes "drv1", [1], DayStatus.work, some 2, none, none⟩
  else none

/-- The spec's own end-to-end scenario: collection `wn5 0lr`, one stop
`WS138NF`, delivery `wn50lr` (delivery identical to collection). -/
def cexDrafts : List DraftStop :=
  [⟨codes "wn5 0lr", none, none⟩, ⟨codes "WS138NF", none, none⟩,
    ⟨codes "wn50lr", none, none⟩]

/-- A geocoding response resolving both scenario keys. -/
def c1Items : List GeoItem :=
  [⟨codes "WN50LR", some ⟨53, -2⟩⟩, ⟨codes "WS138NF", some ⟨52, -1⟩⟩]

theorem jsIsSpace_jsToUpper (n : ℕ) : jsIsSpace (jsToUpper n) = jsIsSpace n := by
  unfold jsToUpper jsIsSpace
  split
  · next h =>
    rw [decide_eq_decide]
    omega
  · rfl

theorem jsToUpper_jsToUpper (n : ℕ) : jsToUpper (jsToUpper n) = jsToUpper n := by
  unfold jsToUpper
  split
  · next h =>
    have hno : ¬ (97 ≤ n - 32 ∧ n - 32 ≤ 122) := by omega
    rw [if_neg hno]
  · rfl

theorem normKey_idem (pc : JStr) : normKey (normKey pc) = normKey pc := by
  unfold normKey
  rw [List.filter_map, List.filter_filter, List.map_map]
  have hfc : ∀ c ∈ pc, (((fun c => !jsIsSpace c) ∘ jsToUpper) c &&
      (!jsIsSpace c)) = (!jsIsSpace c) := by
    intro c _
    simp [Function.comp, jsIsSpace_jsToUpper]
  rw [List.filter_congr hfc]
  apply List.map_congr_left
  intro c _
  exact jsToUpper_jsToUpper c

/-- The canonical key contains no whitespace code point. -/
theorem normKey_no_space (pc : JStr) : ∀ c ∈ normKey pc, jsIsSpace c = false := by
  intro c hc
  unfold normKey at hc
  rcases List.mem_map.1 hc with ⟨b, hb, rfl⟩
  rw [jsIsSpace_jsToUpper]
  simpa using (List.mem_filter.1 hb).2

/-- Re-normalising the pretty display form gives back the canonical key. -/
theorem normKey_formatUKPostcode (pc : JStr) :
    normKey (formatUKPostcode pc) = normKey pc := by
  have hkeyfix : normKey (normKey pc) = normKey pc := normKey_idem pc
  unfold formatUKPostcode
  split
  · next h => rw [h]; rfl
  · split
    · exact hkeyfix
    · set key := normKey pc with hkey
      have hsplit : key.take (key.length - 3) ++ 32 :: key.drop (key.length - 3) =
          key.take (key.length - 3) ++ [32] ++ key.drop (key.length - 3) := by simp
      rw [hsplit]
      unfold normKey
      rw [List.filter_append, List.filter_append]
      have h32 : List.filter (fun c => !jsIsSpace c) [32] = [] := by decide
      rw [h32, List.append_nil]
      have htake : ∀ l : JStr, (∀ c ∈ l, jsIsSpace c = false) →
          l.filter (fun c => !jsIsSpace c) = l := by
        intro l hl
        apply List.filter_eq_self.2
        intro c hc
        simp [hl c hc]
      have h1 := htake (key.take (key.length - 3)) fun c hc =>
        normKey_no_space pc c (List.mem_of_mem_take hc)
      have h2 := htake (key.drop (key.length - 3)) fun c hc =>
        normKey_no_space pc c (List.mem_of_mem_drop hc)
      rw [h1, h2, List.take_append_drop]
      have h3 : List.filter (fun c => !jsIsSpace c) key = key :=
        htake key fun c hc => normKey_no_space pc c hc
      calc List.map jsToUpper key
          = List.map jsToUpper (List.filter (fun c => !jsIsSpace c) key) := by rw [h3]
        _ = normKey key := rfl
        _ = key := hkeyfix

/-- The geocode handler never produces a hit for the empty key. -/
theorem buildGeocodeResults_nil_key (items : List GeoItem) :
    buildGeocodeResults items [] = none := by
  unfold buildGeocodeResults
  suffices h : ∀ acc : JStr → Option Coord, acc [] = none →
      (items.foldl
        (fun acc it =>
          if normKey it.query = [] then acc
          else fun k => if k = normKey it.query then it.result else acc k)
        acc) [] = none by
    exact h _ rfl
  induction items with
  | nil => intro acc hacc; simpa using hacc
  | cons it rest ih =>
    intro acc hacc
    simp only [List.foldl_cons]
    apply ih
    split
    · exact hacc
    · next hq =>
      show (if ([] : JStr) = normKey it.query then it.result else acc []) = none
      rw [if_neg fun h => hq h.symm]
      exact hacc

theorem sub_div_monotone : Monotone fun x : ℕ => x - x / 1460 + x / 36524 - x / 146096 := by
  apply monotone_nat_of_le_succ
  intro x
  omega

theorem yoeFromDoe_monotone : Monotone yoeFromDoe := by
  intro a b hab
  unfold yoeFromDoe
  exact Nat.div_le_div_right (sub_div_monotone hab)

set_option maxRecDepth 4000 in
theorem yoeFromDoe_endpoints : ∀ yoe, yoe < 400 →
    yoeFromDoe (doeOf yoe 0) = yoe ∧ yoeFromDoe (doeOf yoe (364 + leapBit yoe)) = yoe := by
  decide

theorem doeOf_le_doeOf_right (yoe : ℕ) {a b : ℕ} (h : a ≤ b) : doeOf yoe a ≤ doeOf yoe b := by
  unfold doeOf
  omega

theorem yoeFromDoe_doeOf (yoe doy : ℕ) (hy : yoe < 400) (hd : doy ≤ 364 + leapBit yoe) :
    yoeFromDoe (doeOf yoe doy) = yoe := by
  have h0 := (yoeFromDoe_endpoints yoe hy).1
  have h1 := (yoeFromDoe_endpoints yoe hy).2
  have hlo := yoeFromDoe_monotone (doeOf_le_doeOf_right yoe (Nat.zero_le doy))
  have hhi := yoeFromDoe_monotone (doeOf_le_doeOf_right yoe hd)
  omega

set_option maxRecDepth 4000 in
theorem doeOf_le_bound : ∀ yoe, yoe < 400 → doeOf yoe (364 + leapBit yoe) ≤ 146096 := by
  decide

theorem mp_d_recover : ∀ mp, mp < 12 → ∀ d, d < 32 → 1 ≤ d → d ≤ mdaysMp mp →
    mpFromDoy (doyOf mp d) = mp ∧ dFromDoy (doyOf mp d) = d := by
  decide

theorem civil_z_recovery (era : ℤ) (yoe doy : ℕ) (hy : yoe < 400)
    (hdoy : doy ≤ 364 + leapBit yoe) :
    ((era * 146097 + (doeOf yoe doy : ℤ) - 719468) + 719468) / 146097 = era ∧
    doeOfZ (era * 146097 + (doeOf yoe doy : ℤ) - 719468) = doeOf yoe doy := by
  have hb : doeOf yoe doy ≤ 146096 :=
    le_trans (doeOf_le_doeOf_right yoe hdoy) (doeOf_le_bound yoe hy)
  unfold doeOfZ
  constructor <;> omega

/-- The civil-fields/day-count mapping used by JavaScript `Date` is a
round trip on valid proleptic-Gregorian dates. -/
theorem civilFromDays_daysFromCivil (y : ℤ) (m d : ℕ)
    (hm1 : 1 ≤ m) (hm2 : m ≤ 12) (hd1 : 1 ≤ d) (hd2 : d ≤ daysInMonth y m) :
    civilFromDays (daysFromCivil y m d) = (y, m, d) := by
  have hd2' : d ≤ if m = 2 then 29 else if m = 4 ∨ m = 6 ∨ m = 9 ∨ m = 11 then 30 else 31 := by
    unfold daysInMonth at hd2
    split at hd2
    · next h => rw [if_pos h]; split at hd2 <;> omega
    · next h => rw [if_neg h]; exact hd2
  have hd31 : d < 32 := by
    split at hd2' <;> [omega; split at hd2' <;> omega]
  have hdmp : d ≤ mdaysMp (mpOf m) := by
    unfold mdaysMp mpOf
    split
    · next h => split at hd2' <;> [omega; (split at hd2' <;> omega)]
    · split
      · next h => split at hd2' <;> omega
      · next h1 h2 => split at hd2' <;> [omega; (split at hd2' <;> omega)]
  obtain ⟨era, hera⟩ : ∃ e, (if m ≤ 2 then y - 1 else y) / 400 = e := ⟨_, rfl⟩
  obtain ⟨yoe, hyoe⟩ : ∃ u, ((if m ≤ 2 then y - 1 else y) % 400).toNat = u := ⟨_, rfl⟩
  have hy400 : yoe < 400 := by omega
  have hyrel : (if m ≤ 2 then y - 1 else y) = era * 400 + (yoe : ℤ) := by omega
  have hdoyb : doyOf (mpOf m) d ≤ 364 + leapBit yoe := by
    by_cases hmf : m = 2
    · subst hmf
      have hd29 : d ≤ 29 := by simpa using hd2'
      by_cases hdl : d ≤ 28
      · refine le_trans ?_ (Nat.le_add_right 364 (leapBit yoe))
        unfold doyOf mpOf
        omega
      · have hleap : isLeap y = true := by
          unfold daysInMonth at hd2
          simp only [if_pos rfl] at hd2
          by_contra hno
          rw [Bool.not_eq_true] at hno
          rw [hno] at hd2
          simp at hd2
          omega
        have hln : leapNext yoe = true := by
          unfold leapNext
          unfold isLeap at hleap
          rw [decide_eq_true_iff] at hleap ⊢
          simp only [if_pos (by omega : (2:ℕ) ≤ 2)] at hyrel
          omega
        have hlb : leapBit yoe = 1 := by
          unfold leapBit
          rw [hln]
          rfl
        rw [hlb]
        unfold doyOf mpOf
        omega
    · have hmp10 : mpOf m ≤ 10 := by unfold mpOf; omega
      refine le_trans ?_ (Nat.le_add_right 364 (leapBit yoe))
      unfold doyOf
      omega
  have hz : daysFromCivil y m d =
      era * 146097 + (doeOf yoe (doyOf (mpOf m) d) : ℤ) - 719468 := by
    unfold daysFromCivil
    rw [hera, hyoe]
  have hrec := civil_z_recovery era yoe (doyOf (mpOf m) d) hy400 hdoyb
  have hyoerec : yoeFromDoe (doeOf yoe (doyOf (mpOf m) d)) = yoe :=
    yoeFromDoe_doeOf yoe (doyOf (mpOf m) d) hy400 hdoyb
  have hdoyrec : doyFromDoe (doeOf yoe (doyOf (mpOf m) d)) = doyOf (mpOf m) d := by
    unfold doyFromDoe
    rw [hyoerec]
    unfold doeOf
    omega
  have hmp12 : mpOf m < 12 := by unfold mpOf; omega
  have hmpd := mp_d_recover (mpOf m) hmp12 d hd31 hd1 hdmp
  have hmrec : mFromMp (mpOf m) = m := by
    unfold mFromMp mpOf
    split <;> omega
  unfold civilFromDays
  rw [hz, hrec.1, hrec.2, hyoerec, hdoyrec, hmpd.1, hmpd.2, hmrec]
  have hyy : (yoe : ℤ) + era * 400 + (if m ≤ 2 then 1 else 0) = y := by
    by_cases hmm : m ≤ 2
    · rw [if_pos hmm] at hyrel
      rw [if_pos hmm]
      omega
    · rw [if_neg hmm] at hyrel
      rw [if_neg hmm]
      omega
  rw [hyy]

theorem minutesToFields_fieldsToMinutes (dt : LocalDT) (h : validLocalDT dt) :
    minutesToFields (fieldsToMinutes dt) = dt := by
  obtain ⟨h1, h2, h3, h4, h5, h6, h7, h8⟩ := h
  unfold minutesToFields fieldsToMinutes
  have hdiv : (daysFromCivil dt.year dt.month dt.day * 1440 +
      (dt.hour : ℤ) * 60 + dt.minute) / 1440 = daysFromCivil dt.year dt.month dt.day := by
    omega
  have hmod : ((daysFromCivil dt.year dt.month dt.day * 1440 +
      (dt.hour : ℤ) * 60 + dt.minute) % 1440).toNat = dt.hour * 60 + dt.minute := by
    omega
  rw [hdiv, hmod, civilFromDays_daysFromCivil dt.year dt.month dt.day h3 h4 h5 h6]
  have hh : (dt.hour * 60 + dt.minute) / 60 = dt.hour := by omega
  have hm : (dt.hour * 60 + dt.minute) % 60 = dt.minute := by omega
  rw [hh, hm]

theorem getEntry_foldl_acc (d t : JStr) (s : EntryStore) :
    ∀ acc : Option DayEntry,
      s.foldl (fun acc e => if e.driver_id = d ∧ e.entry_date = t then some e else acc) acc =
        match getEntry s d t with
        | some x => some x
        | none => acc := by
  induction s with
  | nil => intro acc; rfl
  | cons e rest ih =>
    intro acc
    show rest.foldl _ (if e.driver_id = d ∧ e.entry_date = t then some e else acc) = _
    rw [ih]
    have hR : getEntry (e :: rest) d t =
        match getEntry rest d t with
        | some x => some x
        | none => if e.driver_id = d ∧ e.entry_date = t then some e else none := by
      show rest.foldl _ (if e.driver_id = d ∧ e.entry_date = t then some e else none) = _
      rw [ih]
    rw [hR]
    cases getEntry rest d t
    · by_cases hk : e.driver_id = d ∧ e.entry_date = t
      · rw [if_pos hk, if_pos hk]
      · rw [if_neg hk, if_neg hk]
    · rfl

theorem getEntry_cons (e : DayEntry) (s : EntryStore) (d t : JStr) :
    getEntry (e :: s) d t =
      match getEntry s d t with
      | some x => some x
      | none => if e.driver_id = d ∧ e.entry_date = t then some e else none := by
  show s.foldl _ (if e.driver_id = d ∧ e.entry_date = t then some e else none) = _
  rw [getEntry_foldl_acc]

theorem getEntry_append_single (s : EntryStore) (e : DayEntry) (d t : JStr) :
    getEntry (s ++ [e]) d t =
      if e.driver_id = d ∧ e.entry_date = t then some e else getEntry s d t := by
  unfold getEntry
  rw [List.foldl_append]
  rfl

theorem getEntry_eq_none_of_no_match (s : EntryStore) (d t : JStr)
    (h : ∀ x ∈ s, ¬(x.driver_id = d ∧ x.entry_date = t)) : getEntry s d t = none := by
  induction s with
  | nil => rfl
  | cons e rest ih =>
    rw [getEntry_cons, ih fun x hx => h x (List.mem_cons_of_mem e hx)]
    rw [if_neg (h e (List.mem_cons_self e rest))]

theorem getEntry_map_replace (s : EntryStore) (e : DayEntry)
    (hany : (s.any fun x =>
      decide (x.driver_id = e.driver_id ∧ x.entry_date = e.entry_date)) = true) :
    getEntry (s.map fun x =>
        if x.driver_id = e.driver_id ∧ x.entry_date = e.entry_date then e else x)
      e.driver_id e.entry_date = some e := by
  induction s with
  | nil => simp at hany
  | cons x rest ih =>
    rw [List.map_cons, getEntry_cons]
    by_cases hr : (rest.any fun x =>
        decide (x.driver_id = e.driver_id ∧ x.entry_date = e.entry_date)) = true
    · rw [ih hr]
    · have hnone : getEntry (rest.map fun x =>
          if x.driver_id = e.driver_id ∧ x.entry_date = e.entry_date then e else x)
          e.driver_id e.entry_date = none := by
        apply getEntry_eq_none_of_no_match
        intro y hy
        rcases List.mem_map.1 hy with ⟨x', hx', rfl⟩
        have hx'no : ¬(x'.driver_id = e.driver_id ∧ x'.entry_date = e.entry_date) := by
          intro hc
          exact hr (List.any_eq_true.2 ⟨x', hx', by simpa using hc⟩)
        rw [if_neg hx'no]
        exact hx'no
      rw [hnone]
      have hx : x.driver_id = e.driver_id ∧ x.entry_date = e.entry_date := by
        rcases List.any_eq_true.1 hany with ⟨y, hy, hyp⟩
        rcases List.mem_cons.1 hy with rfl | hmem
        · simpa using hyp
        · exact absurd (List.any_eq_true.2 ⟨y, hmem, hyp⟩) hr
      rw [if_pos hx, if_pos ⟨rfl, rfl⟩]

theorem getEntry_map_other (s : EntryStore) (e : DayEntry) (d t : JStr)
    (hne : ¬(e.driver_id = d ∧ e.entry_date = t)) :
    getEntry (s.map fun x =>
        if x.driver_id = e.driver_id ∧ x.entry_date = e.entry_date then e else x) d t =
      getEntry s d t := by
  induction s with
  | nil => rfl
  | cons x rest ih =>
    rw [List.map_cons, getEntry_cons, getEntry_cons, ih]
    cases getEntry rest d t
    · by_cases hx : x.driver_id = e.driver_id ∧ x.entry_date = e.entry_date
      · rw [if_pos hx, if_neg hne]
        have hxno : ¬(x.driver_id = d ∧ x.entry_date = t) := by
          intro hc
          exact hne ⟨hx.1 ▸ hc.1, hx.2 ▸ hc.2⟩
        rw [if_neg hxno]
      · rw [if_neg hx]
    · rfl

theorem getEntry_upsert_self (s : EntryStore) (e : DayEntry) :
    getEntry (upsertEntry s e) e.driver_id e.entry_date = some e := by
  unfold upsertEntry
  split
  · next hany => exact getEntry_map_replace s e hany
  · rw [getEntry_append_single, if_pos ⟨rfl, rfl⟩]

theorem getEntry_upsert_other (s : EntryStore) (e : DayEntry) (d t : JStr)
    (hne : ¬(e.driver_id = d ∧ e.entry_date = t)) :
    getEntry (upsertEntry s e) d t = getEntry s d t := by
  unfold upsertEntry
  split
  · exact getEntry_map_other s e d t hne
  · rw [getEntry_append_single, if_neg hne]

theorem getEntry_upsert_isSome (s : EntryStore) (e : DayEntry) (d t : JStr)
    (h : (getEntry s d t).isSome = true) :
    (getEntry (upsertEntry s e) d t).isSome = true := by
  by_cases hk : e.driver_id = d ∧ e.entry_date = t
  · obtain ⟨h1, h2⟩ := hk
    subst h1
    subst h2
    rw [getEntry_upsert_self]
    rfl
  · rw [getEntry_upsert_other s e d t hk]
    exact h

theorem isPrefixOf_append_self (l t : JStr) : l.isPrefixOf (l ++ t) = true := by
  induction l with
  | nil => simp [List.isPrefixOf]
  | cons a as ih => simp [List.isPrefixOf, ih]

theorem jsTrim_manual_prefix (r : JStr) :
    ∃ r', jsTrim (codes "Manual:" ++ r) = codes "Manual:" ++ r' := by
  unfold jsTrim
  have hfront : List.dropWhile jsIsSpace (codes "Manual:" ++ r) = codes "Manual:" ++ r := by
    have hM : codes "Manual:" ++ r = 77 :: (codes "anual:" ++ r) := rfl
    rw [hM, List.dropWhile_cons]
    have h77 : jsIsSpace 77 = false := rfl
    rw [h77]
    simp
  rw [hfront, List.reverse_append, List.dropWhile_append]
  split
  · refine ⟨[], ?_⟩
    have hrev : List.dropWhile jsIsSpace (codes "Manual:").reverse = (codes "Manual:").reverse := by
      decide
    rw [hrev, List.reverse_reverse, List.append_nil]
  · refine ⟨(List.dropWhile jsIsSpace r.reverse).reverse, ?_⟩
    rw [List.reverse_append, List.reverse_reverse]

theorem notesStartsManual_of_prefix (r : JStr) :
    notesStartsManual (some (codes "Manual:" ++ r)) = true := by
  show (codes "manual:").isPrefixOf
    ((jsTrim (codes "Manual:" ++ r)).map jsToLower) = true
  obtain ⟨r', hr'⟩ := jsTrim_manual_prefix r
  rw [hr', List.map_append]
  have hlow : (codes "Manual:").map jsToLower = codes "manual:" := by decide
  rw [hlow]
  exact isPrefixOf_append_self _ _

theorem syncStep_getEntry_isSome (orig acc : EntryStore) (r : CompletedJobSignal)
    (d t : JStr) (h : (getEntry acc d t).isSome = true) :
    (getEntry (syncStep orig acc r) d t).isSome = true := by
  unfold syncStep
  split
  · exact h
  · split
    · split
      · exact h
      · split
        · exact h
        · split
          · exact h
          · exact getEntry_upsert_isSome acc (autoEntry r) d t h
    · exact getEntry_upsert_isSome acc (autoEntry r) d t h

theorem sync_foldl_preserves (store : EntryStore) (sigs : List CompletedJobSignal) :
    ∀ (acc : EntryStore) (d t : JStr), (getEntry acc d t).isSome = true →
      (getEntry (sigs.foldl (syncStep store) acc) d t).isSome = true := by
  induction sigs with
  | nil => intro acc d t h; exact h
  | cons s rest ih =>
    intro acc d t h
    rw [List.foldl_cons]
    exact ih _ d t (syncStep_getEntry_isSome store acc s d t h)

theorem syncStep_new_key_isSome (store acc : EntryStore) (r : CompletedJobSignal)
    (hInv : ∀ d t, (getEntry store d t).isSome = true → (getEntry acc d t).isSome = true)
    (hv : ¬(r.driver_id = [] ∨ r.entry_date = [])) :
    (getEntry (syncStep store acc r) r.driver_id r.entry_date).isSome = true := by
  have hauto1 : (autoEntry r).driver_id = r.driver_id := rfl
  have hauto2 : (autoEntry r).entry_date = r.entry_date := rfl
  have hself := getEntry_upsert_self acc (autoEntry r)
  rw [hauto1, hauto2] at hself
  unfold syncStep
  rw [if_neg hv]
  split
  · next ex hex =>
    have hacc : (getEntry acc r.driver_id r.entry_date).isSome = true := by
      apply hInv
      rw [hex]
      rfl
    split
    · exact hacc
    · split
      · exact hacc
      · split
        · exact hacc
        · rw [hself]
          rfl
  · rw [hself]
    rfl

theorem sync_key_isSome (store : EntryStore) (sigs : List CompletedJobSignal) :
    ∀ acc : EntryStore,
      (∀ d t, (getEntry store d t).isSome = true → (getEntry acc d t).isSome = true) →
      ∀ r ∈ sigs, ¬(r.driver_id = [] ∨ r.entry_date = []) →
      (getEntry (sigs.foldl (syncStep store) acc) r.driver_id r.entry_date).isSome = true := by
  induction sigs with
  | nil =>
    intro acc _ r hr _
    exact absurd hr (List.not_mem_nil r)
  | cons s rest ih =>
    intro acc hInv r hr hv
    rw [List.foldl_cons]
    rcases List.mem_cons.1 hr with rfl | hmem
    · exact sync_foldl_preserves store rest (syncStep store acc r) _ _
        (syncStep_new_key_isSome store acc r hInv hv)
    · exact ih (syncStep store acc s)
        (fun d t h => syncStep_getEntry_isSome store acc s d t (hInv d t h)) r hmem hv

theorem syncStep_id_of_isSome (orig acc : EntryStore) (r : CompletedJobSignal)
    (h : ¬(r.driver_id = [] ∨ r.entry_date = []) →
      (getEntry orig r.driver_id r.entry_date).isSome = true) :
    syncStep orig acc r = acc := by
  unfold syncStep
  split
  · rfl
  · next hv =>
    split
    · next ex hex =>
      split
      · rfl
      · next hnp =>
        split
        · rfl
        · next hnm =>
          split
          · rfl
          · next hnw =>
            exfalso
            cases hstt : ex.status with
            | work => exact hnw hstt
            | leave => exact hnp (by rw [hstt]; rfl)
            | off => exact hnp (by rw [hstt]; rfl)
            | sick => exact hnp (by rw [hstt]; rfl)
    · next hex =>
      have hs := h hv
      rw [hex] at hs
      exact absurd hs (by simp)

/-- C2: for every store state and signal list, the Completed-Job Sync
Reconciler leaves every existing day entry whose status is leave, off or
sick unchanged, and leaves every existing entry whose notes begin with the
manual marker prefix `Manual:` unchanged, regardless of which (driver,
date) keys the signals target. -/
theorem sync_preserves_protected_and_manual
    (store : EntryStore) (sigs : List CompletedJobSignal) (d t : JStr) (e : DayEntry)
    (hget : getEntry store d t = some e)
    (hprot : isProtectedStatus e.status = true ∨ ∃ r, e.notes = some (codes "Manual:" ++ r)) :
    getEntry (syncFromCompletedJobs store sigs) d t = some e := by
  unfold syncFromCompletedJobs
  suffices h : ∀ (l : List CompletedJobSignal) (acc : EntryStore),
      getEntry acc d t = some e → getEntry (l.foldl (syncStep store) acc) d t = some e from
    h sigs store hget
  intro l
  induction l with
  | nil => intro acc hacc; exact hacc
  | cons s rest ih =>
    intro acc hacc
    rw [List.foldl_cons]
    apply ih
    by_cases hkey : s.driver_id = d ∧ s.entry_date = t
    · obtain ⟨hk1, hk2⟩ := hkey
      subst hk1
      subst hk2
      unfold syncStep
      split
      · exact hacc
      · split
        · next ex hex =>
          rw [hget] at hex
          injection hex with hex
          subst hex
          split
          · exact hacc
          · next hnp =>
            split
            · exact hacc
            · next hnm =>
              split
              · exact hacc
              · exfalso
                rcases hprot with hp | ⟨r, hr⟩
                · exact hnp hp
                · exact hnm (by rw [hr]; exact notesStartsManual_of_prefix r)
        · next hex =>
          rw [hget] at hex
          exact Option.noConfusion hex
    · have hne : ¬((autoEntry s).driver_id = d ∧ (autoEntry s).entry_date = t) := hkey
      unfold syncStep
      split
      · exact hacc
      · split
        · split
          · exact hacc
          · split
            · exact hacc
            · split
              · exact hacc
              · rw [getEntry_upsert_other acc (autoEntry s) d t hne]
                exact hacc
        · rw [getEntry_upsert_other acc (autoEntry s) d t hne]
          exact hacc

/-- Witness for C2 at a concrete input: one leave entry survives a signal
that targets its exact (driver, date) key. -/
theorem sync_preserves_protected_and_manual_witness :
    isProtectedStatus DayStatus.leave = true ∧
    getEntry (syncFromCompletedJobs
        [⟨codes "drv1", codes "2025-01-06", DayStatus.leave, some 1, none,
          some (codes "Manual: Annual leave")⟩]
        [⟨codes "drv1", codes "2025-01-06"⟩]) (codes "drv1") (codes "2025-01-06") =
      some ⟨codes "drv1", codes "2025-01-06", DayStatus.leave, some 1, none,
        some (codes "Manual: Annual leave")⟩ :=
  ⟨by decide,
    sync_preserves_protected_and_manual _ _ _ _ _ (by decide) (Or.inl (by decide))⟩

/-- C3: the Completed-Job Sync Reconciler is idempotent: running it a
second time over the same signal list, against the store produced by the
first run, changes nothing. -/
theorem sync_idempotent (store : EntryStore) (sigs : List CompletedJobSignal) :
    syncFromCompletedJobs (syncFromCompletedJobs store sigs) sigs =
      syncFromCompletedJobs store sigs := by
  have hkeys : ∀ r ∈ sigs, ¬(r.driver_id = [] ∨ r.entry_date = []) →
      (getEntry (syncFromCompletedJobs store sigs) r.driver_id r.entry_date).isSome = true :=
    fun r hr hv => sync_key_isSome store sigs store (fun _ _ h => h) r hr hv
  show sigs.foldl (syncStep (syncFromCompletedJobs store sigs))
      (syncFromCompletedJobs store sigs) = syncFromCompletedJobs store sigs
  generalize hs1 : syncFromCompletedJobs store sigs = s1 at hkeys ⊢
  suffices h : ∀ l : List CompletedJobSignal,
      (∀ r ∈ l, ¬(r.driver_id = [] ∨ r.entry_date = []) →
        (getEntry s1 r.driver_id r.entry_date).isSome = true) →
      ∀ acc : EntryStore, l.foldl (syncStep s1) acc = acc from
    h sigs hkeys s1
  intro l
  induction l with
  | nil => intro _ acc; rfl
  | cons s rest ih =>
    intro hmem acc
    rw [List.foldl_cons,
      syncStep_id_of_isSome s1 acc s (hmem s (List.mem_cons_self s rest))]
    exact ih (fun r hr => hmem r (List.mem_cons_of_mem s hr)) acc

/-- C7: the canonical display form equals the input upper-cased with all
whitespace stripped, with a single space re-inserted before the final 3
characters when the stripped string is longer than 3 characters, and is
the stripped string unchanged when its length is at most 3. -/
theorem formatUKPostcode_spec (s : JStr) :
    normKey s = (s.map jsToUpper).filter (fun c => !jsIsSpace c) ∧
    formatUKPostcode s =
      (if (normKey s).length ≤ 3 then normKey s
       else (normKey s).take ((normKey s).length - 3) ++
         32 :: (normKey s).drop ((normKey s).length - 3)) := by
  constructor
  · unfold normKey
    rw [List.filter_map]
    have hcong : ∀ c ∈ s, ((fun c => !jsIsSpace c) ∘ jsToUpper) c = (!jsIsSpace c) := by
      intro c _
      simp [Function.comp, jsIsSpace_jsToUpper]
    rw [List.filter_congr hcong]
  · unfold formatUKPostcode
    split
    · next h =>
      rw [h]
      simp
    · split
      · rfl
      · rfl

/-- C8: when the routing service returns a numeric distance in meters,
the route-miles handler answers with that distance divided by 1609.344
and rounded to one decimal place (`Math.round(miles*10)/10`); when the
distance is not numeric, it answers 502 instead of a value. -/
theorem routeMiles_conversion (raw : List RawCoord) (m : ℚ)
    (hlen : 2 ≤ (validCoords raw).length) :
    (routeMiles raw (.ok (some m))).1 =
      .okMiles ((jsRound (m / metersPerMile * 10) : ℚ) / 10) ∧
    (routeMiles raw (.ok none)).1 = .badGateway := by
  have hraw : (validCoords raw).length ≤ raw.length := by
    unfold validCoords
    exact List.length_filterMap_le _ _
  constructor
  · unfold routeMiles
    rw [if_neg (by omega), if_neg (by omega)]
  · unfold routeMiles
    rw [if_neg (by omega), if_neg (by omega)]

/-- Witness for C8 at a concrete input: a 5000 m route over two valid
coordinates converts to `Math.round(5000/1609.344*10)/10` miles, and the
non-numeric outcome fails. -/
theorem routeMiles_conversion_witness :
    2 ≤ (validCoords [⟨some 51, some 0⟩, ⟨some 52, some 1⟩]).length ∧
    (routeMiles [⟨some 51, some 0⟩, ⟨some 52, some 1⟩] (.ok (some 5000))).1 =
      .okMiles ((jsRound ((5000 : ℚ) / metersPerMile * 10) : ℚ) / 10) ∧
    (routeMiles [⟨some 51, some 0⟩, ⟨some 52, some 1⟩] (.ok none)).1 = .badGateway :=
  ⟨by decide,
    (routeMiles_conversion [⟨some 51, some 0⟩, ⟨some 52, some 1⟩] 5000 (by decide)).1,
    (routeMiles_conversion [⟨some 51, some 0⟩, ⟨some 52, some 1⟩] 5000 (by decide)).2⟩

/-- C10: on a coords array of length at least 2, entries with non-finite
lat/lng are silently discarded; with at least 2 valid entries left the
OSRM request is issued over exactly the valid entries in their original
order and the request is not rejected, and with fewer than 2 the handler
responds 400 and never calls OSRM. -/
theorem routeMiles_filter_invalid (raw : List RawCoord) (osrm : OsrmOutcome)
    (hlen : 2 ≤ raw.length) :
    (2 ≤ (validCoords raw).length →
      (routeMiles raw osrm).2 = some (validCoords raw) ∧
      (routeMiles raw osrm).1 ≠ .badRequest) ∧
    ((validCoords raw).length < 2 →
      (routeMiles raw osrm).1 = .badRequest ∧ (routeMiles raw osrm).2 = none) := by
  unfold routeMiles
  rw [if_neg (by omega)]
  constructor
  · intro hv
    rw [if_neg (by omega)]
    cases osrm with
    | httpErr => exact ⟨rfl, fun hc => RouteMilesResult.noConfusion hc⟩
    | ok dist =>
      cases dist with
      | none => exact ⟨rfl, fun hc => RouteMilesResult.noConfusion hc⟩
      | some m => exact ⟨rfl, fun hc => RouteMilesResult.noConfusion hc⟩
  · intro hv
    rw [if_pos hv]
    exact ⟨rfl, rfl⟩

/-- Witness for C10 at a concrete input: a 3-entry request with one
non-finite entry routes over the 2 surviving entries in order; a request
with only 1 valid entry is rejected with 400. -/
theorem routeMiles_filter_invalid_witness :
    validCoords [⟨some 51, some 0⟩, ⟨none, some 2⟩, ⟨some 52, some 1⟩] =
      [⟨51, 0⟩, ⟨52, 1⟩] ∧
    (routeMiles [⟨some 51, some 0⟩, ⟨none, some 2⟩, ⟨some 52, some 1⟩]
        (.ok (some 5000))).2 = some (validCoords [⟨some 51, some 0⟩, ⟨none, some 2⟩, ⟨some 52, some 1⟩]) ∧
    (routeMiles [⟨some 51, some 0⟩, ⟨none, some 2⟩, ⟨none, none⟩] (.ok (some 5000))).1 =
      .badRequest :=
  ⟨by decide,
    ((routeMiles_filter_invalid [⟨some 51, some 0⟩, ⟨none, some 2⟩, ⟨some 52, some 1⟩]
        (.ok (some 5000)) (by decide)).1 (by decide)).1,
    ((routeMiles_filter_invalid [⟨some 51, some 0⟩, ⟨none, some 2⟩, ⟨none, none⟩]
        (.ok (some 5000)) (by decide)).2 (by decide)).1⟩

theorem dayStep_shift_none (ent : JStr → Option DayEntry) (t0 : WeekTotals) (day : JStr)
    (h : ent day = none) : dayStep .shift ent t0 day = t0 := by
  unfold dayStep
  rw [h]

theorem dayStep_shift_work (ent : JStr → Option DayEntry) (t0 : WeekTotals) (day : JStr)
    (e : DayEntry) (h : ent day = some e) (hw : e.status = .work) :
    dayStep .shift ent t0 day =
      { t0 with workUnits := t0.workUnits + e.shifts.getD 1 } := by
  unfold dayStep
  rw [h]
  dsimp only
  rw [if_pos hw, if_pos rfl]

theorem dayStep_shift_leave (ent : JStr → Option DayEntry) (t0 : WeekTotals) (day : JStr)
    (e : DayEntry) (h : ent day = some e) (hl : e.status = .leave) :
    dayStep .shift ent t0 day =
      { t0 with leaveUnits := t0.leaveUnits + e.shifts.getD 1 } := by
  unfold dayStep
  rw [h]
  dsimp only
  rw [if_neg (by rw [hl]; decide), if_pos hl, if_pos rfl]

theorem dayStep_shift_unpaid (ent : JStr → Option DayEntry) (t0 : WeekTotals) (day : JStr)
    (e : DayEntry) (h : ent day = some e) (hw : ¬ e.status = .work)
    (hl : ¬ e.status = .leave) :
    dayStep .shift ent t0 day = { t0 with unpaidUnits := t0.unpaidUnits + 1 } := by
  unfold dayStep
  rw [h]
  dsimp only
  rw [if_neg hw, if_neg hl, if_pos rfl]

theorem shift_fold_spec (ent : JStr → Option DayEntry) :
    ∀ weekDates : List JStr,
      (∀ day ∈ weekDates, ∀ e : DayEntry, ent day = some e →
        (e.status = .work ∨ e.status = .leave) → e.shifts = some 1) →
      ∀ t0 : WeekTotals,
        (weekDates.foldl (dayStep .shift ent) t0).workUnits =
          t0.workUnits + ((weekDates.countP fun day =>
            match ent day with
            | some e => decide (e.status = DayStatus.work)
            | none => false) : ℚ) ∧
        (weekDates.foldl (dayStep .shift ent) t0).leaveUnits =
          t0.leaveUnits + ((weekDates.countP fun day =>
            match ent day with
            | some e => decide (e.status = DayStatus.leave)
            | none => false) : ℚ) ∧
        (weekDates.foldl (dayStep .shift ent) t0).unpaidUnits =
          t0.unpaidUnits + ((weekDates.countP fun day =>
            match ent day with
            | some e => decide (e.status = DayStatus.off ∨ e.status = DayStatus.sick)
            | none => false) : ℚ) := by
  intro weekDates
  induction weekDates with
  | nil =>
    intro _ t0
    refine ⟨?_, ?_, ?_⟩ <;> simp
  | cons day rest ih =>
    intro hsh t0
    rw [List.foldl_cons]
    have hrest := fun d hd e he hst => hsh d (List.mem_cons_of_mem day hd) e he hst
    cases hent : ent day with
    | none =>
      rw [dayStep_shift_none ent t0 day hent]
      obtain ⟨ihw, ihl, ihu⟩ := ih hrest t0
      refine ⟨?_, ?_, ?_⟩ <;> simp [List.countP_cons, hent, ihw, ihl, ihu]
    | some e =>
      have hday := List.mem_cons_self day rest
      cases hstt : e.status with
      | work =>
        have hs1 : e.shifts = some 1 := hsh day hday e hent (Or.inl hstt)
        rw [dayStep_shift_work ent t0 day e hent hstt, hs1]
        obtain ⟨ihw, ihl, ihu⟩ :=
          ih hrest { t0 with workUnits := t0.workUnits + (some (1:ℚ)).getD 1 }
        refine ⟨?_, ?_, ?_⟩ <;> [rw [ihw]; rw [ihl]; rw [ihu]] <;>
          simp only [List.countP_cons, hent, Option.getD_some] <;> rw [hstt] <;>
          push_cast <;> (try simp) <;> (try ring)
      | leave =>
        have hs1 : e.shifts = some 1 := hsh day hday e hent (Or.inr hstt)
        rw [dayStep_shift_leave ent t0 day e hent hstt, hs1]
        obtain ⟨ihw, ihl, ihu⟩ :=
          ih hrest { t0 with leaveUnits := t0.leaveUnits + (some (1:ℚ)).getD 1 }
        refine ⟨?_, ?_, ?_⟩ <;> [rw [ihw]; rw [ihl]; rw [ihu]] <;>
          simp only [List.countP_cons, hent, Option.getD_some] <;> rw [hstt] <;>
          push_cast <;> (try simp) <;> (try ring)
      | off =>
        rw [dayStep_shift_unpaid ent t0 day e hent (by rw [hstt]; decide) (by rw [hstt]; decide)]
        obtain ⟨ihw, ihl, ihu⟩ := ih hrest { t0 with unpaidUnits := t0.unpaidUnits + 1 }
        refine ⟨?_, ?_, ?_⟩ <;> [rw [ihw]; rw [ihl]; rw [ihu]] <;>
          simp only [List.countP_cons, hent] <;> rw [hstt] <;>
          push_cast <;> (try simp) <;> (try ring)
      | sick =>
        rw [dayStep_shift_unpaid ent t0 day e hent (by rw [hstt]; decide) (by rw [hstt]; decide)]
        obtain ⟨ihw, ihl, ihu⟩ := ih hrest { t0 with unpaidUnits := t0.unpaidUnits + 1 }
        refine ⟨?_, ?_, ?_⟩ <;> [rw [ihw]; rw [ihl]; rw [ihu]] <;>
          simp only [List.countP_cons, hent] <;> rw [hstt] <;>
          push_cast <;> (try simp) <;> (try ring)

/-- C4 counterexample: a shift driver whose single work entry carries a
recorded `shifts` value of 2 gets workUnits 2 and amount 200 from
`computeDriverWeek`, not the one unit per work day (and amount 100) the
claim asserts for "regardless of the recorded shifts value". -/
theorem computeDriverWeek_shift_counterexample :
    (computeDriverWeek .shift 100 exShiftWeek cexShiftEnt).workUnits = 2 ∧
    (computeDriverWeek .shift 100 exShiftWeek cexShiftEnt).amount = 200 ∧
    ¬((computeDriverWeek .shift 100 exShiftWeek cexShiftEnt).workUnits =
      ((exShiftWeek.countP fun day =>
        match cexShiftEnt day with
        | some e => decide (e.status = DayStatus.work)
        | none => false) : ℚ)) := by
  refine ⟨?_, ?_, ?_⟩ <;>
    norm_num [computeDriverWeek, dayStep, exShiftWeek, cexShiftEnt, List.countP_cons]

/-- C4 (amended): for a shift-pay-type driver, each day whose entry has
status work or leave contributes its recorded `shifts` value (1 when the
column is null) — so exactly 1 unit whenever the entry carries the
`shifts = 1` the application itself writes for such days — each off or
sick day contributes exactly 1 unpaid unit, the recorded hours are never
consulted, and the amount equals (workUnits + leaveUnits) * payRate; the
spec example (Mon work, Tue work, Wed leave, Thu off, Fri sick at rate
100) yields workUnits 2, leaveUnits 1, unpaidUnits 2, amount 300. -/
theorem computeDriverWeek_shift_amended :
    (∀ (rate : ℚ) (weekDates : List JStr) (ent : JStr → Option DayEntry),
      (∀ day ∈ weekDates, ∀ e : DayEntry, ent day = some e →
        (e.status = .work ∨ e.status = .leave) → e.shifts = some 1) →
      (computeDriverWeek .shift rate weekDates ent).workUnits =
        ((weekDates.countP fun day =>
          match ent day with
          | some e => decide (e.status = DayStatus.work)
          | none => false) : ℚ) ∧
      (computeDriverWeek .shift rate weekDates ent).leaveUnits =
        ((weekDates.countP fun day =>
          match ent day with
          | some e => decide (e.status = DayStatus.leave)
          | none => false) : ℚ) ∧
      (computeDriverWeek .shift rate weekDates ent).unpaidUnits =
        ((weekDates.countP fun day =>
          match ent day with
          | some e => decide (e.status = DayStatus.off ∨ e.status = DayStatus.sick)
          | none => false) : ℚ) ∧
      (computeDriverWeek .shift rate weekDates ent).amount =
        ((computeDriverWeek .shift rate weekDates ent).workUnits +
          (computeDriverWeek .shift rate weekDates ent).leaveUnits) * rate) ∧
    (computeDriverWeek .shift 100 exShiftWeek exShiftEnt).workUnits = 2 ∧
    (computeDriverWeek .shift 100 exShiftWeek exShiftEnt).leaveUnits = 1 ∧
    (computeDriverWeek .shift 100 exShiftWeek exShiftEnt).unpaidUnits = 2 ∧
    (computeDriverWeek .shift 100 exShiftWeek exShiftEnt).amount = 300 := by
  constructor
  · intro rate weekDates ent hsh
    obtain ⟨hw, hl, hu⟩ := shift_fold_spec ent weekDates hsh ⟨0, 0, 0, 0, 0, 0, 0⟩
    refine ⟨?_, ?_, ?_, rfl⟩
    · show (weekDates.foldl (dayStep .shift ent) ⟨0, 0, 0, 0, 0, 0, 0⟩).workUnits = _
      rw [hw]
      show (0 : ℚ) + _ = _
      rw [zero_add]
    · show (weekDates.foldl (dayStep .shift ent) ⟨0, 0, 0, 0, 0, 0, 0⟩).leaveUnits = _
      rw [hl]
      show (0 : ℚ) + _ = _
      rw [zero_add]
    · show (weekDates.foldl (dayStep .shift ent) ⟨0, 0, 0, 0, 0, 0, 0⟩).unpaidUnits = _
      rw [hu]
      show (0 : ℚ) + _ = _
      rw [zero_add]
  · refine ⟨?_, ?_, ?_, ?_⟩ <;>
      simp [computeDriverWeek, dayStep, exShiftWeek, exShiftEnt] <;> norm_num

/-- Witness for the amended C4 at a concrete input: the spec example week
satisfies the shifts-are-1 premise and the unit counts follow from the
theorem. -/
theorem computeDriverWeek_shift_amended_witness :
    (∀ day ∈ exShiftWeek, ∀ e : DayEntry, exShiftEnt day = some e →
      (e.status = .work ∨ e.status = .leave) → e.shifts = some 1) ∧
    (computeDriverWeek .shift 100 exShiftWeek exShiftEnt).workUnits =
      ((exShiftWeek.countP fun day =>
        match exShiftEnt day with
        | some e => decide (e.status = DayStatus.work)
        | none => false) : ℚ) :=
  ⟨fun day hday e he hst => by
      fin_cases hday <;> simp [exShiftEnt] at he <;> (try cases he) <;> (first | rfl | simp at hst),
    (computeDriverWeek_shift_amended.1 100 exShiftWeek exShiftEnt
      (fun day hday e he hst => by
        fin_cases hday <;> simp [exShiftEnt] at he <;> (try cases he) <;> (first | rfl | simp at hst))).1⟩

/-- C6 counterexample: with delivery equal to collection, the batch the
modal posts to the geocoding call contains the canonical key `WN50LR`
twice — the submitted batch is not deduplicated. -/
theorem submittedBatch_dedup_counterexample :
    (confirm 0 cexDrafts (.ok []) (.ok none)).geoSent =
      some [codes "WN50LR", codes "WS138NF", codes "WN50LR"] ∧
    ¬[codes "WN50LR", codes "WS138NF", codes "WN50LR"].Nodup := by
  constructor <;> decide

/-- C6 (amended): the batch submitted in the single geocoding call is the
in-order list of canonical keys of every draft with a nonempty key —
duplicates retained, not deduplicated — and each submitted entry is
canonical (normalising it again changes nothing) and nonempty. -/
theorem submittedBatch_canonical_amended (off : ℤ) (drafts : List DraftStop)
    (geo : GeoOutcome) (osrm : OsrmOutcome)
    (hlen : 2 ≤ (submittedBatch drafts).length) :
    (confirm off drafts geo osrm).geoSent = some (submittedBatch drafts) ∧
    submittedBatch drafts =
      (drafts.map fun x => normKey x.postcode).filter (fun p => !p.isEmpty) ∧
    ∀ pc ∈ submittedBatch drafts, normKey pc = pc ∧ pc ≠ [] := by
  refine ⟨?_, rfl, ?_⟩
  · unfold confirm
    rw [if_neg (by omega)]
    cases geo with
    | err => rfl
    | ok items =>
      dsimp only
      split
      · rfl
      · split
        · rfl
        · split <;> rfl
  · intro pc hpc
    unfold submittedBatch at hpc
    rcases List.mem_filter.1 hpc with ⟨hmem, hne⟩
    rcases List.mem_map.1 hmem with ⟨x, hx, rfl⟩
    refine ⟨normKey_idem x.postcode, ?_⟩
    simpa using hne

/-- Witness for the amended C6 at a concrete input: the scenario drafts
produce a geocode call whose batch is exactly the in-order key list. -/
theorem submittedBatch_canonical_amended_witness :
    2 ≤ (submittedBatch cexDrafts).length ∧
    (confirm 0 cexDrafts (.ok []) (.ok none)).geoSent = some (submittedBatch cexDrafts) :=
  ⟨by decide,
    (submittedBatch_canonical_amended 0 cexDrafts (.ok []) (.ok none) (by decide)).1⟩

/-- C5: whenever at least one submitted postcode has no coordinate result
from geocoding, confirm fails with the not-found error whose message
lists the pretty display form of every unresolved submitted postcode (not
only the first), and the route-distance call is never issued. -/
theorem geocode_missing_fails_no_route (off : ℤ) (drafts : List DraftStop)
    (items : List GeoItem) (osrm : OsrmOutcome)
    (hlen : 2 ≤ (submittedBatch drafts).length)
    (hmiss : ∃ pc ∈ submittedBatch drafts, buildGeocodeResults items pc = none) :
    (confirm off drafts (.ok items) osrm).result =
      .error (.postcodesNotFound
        ((missingBatch drafts (buildGeocodeResults items)).map formatUKPostcode)) ∧
    (∀ pc ∈ submittedBatch drafts, buildGeocodeResults items pc = none →
      formatUKPostcode pc ∈
        (missingBatch drafts (buildGeocodeResults items)).map formatUKPostcode) ∧
    (confirm off drafts (.ok items) osrm).routeSent = none := by
  have hmb : missingBatch drafts (buildGeocodeResults items) ≠ [] := by
    rcases hmiss with ⟨pc, hpc, hnone⟩
    intro hc
    have hin : pc ∈ missingBatch drafts (buildGeocodeResults items) := by
      unfold missingBatch
      exact List.mem_filter.2 ⟨hpc, by rw [hnone]; rfl⟩
    rw [hc] at hin
    exact List.not_mem_nil pc hin
  refine ⟨?_, ?_, ?_⟩
  · unfold confirm
    rw [if_neg (by omega)]
    dsimp only
    rw [if_pos hmb]
  · intro pc hpc hnone
    exact List.mem_map_of_mem formatUKPostcode
      (List.mem_filter.2 ⟨hpc, by rw [hnone]; rfl⟩)
  · unfold confirm
    rw [if_neg (by omega)]
    dsimp only
    rw [if_pos hmb]

/-- Witness for C5 at a concrete input: with an empty geocoding result
set both scenario keys are unresolved, and no route-distance call is
made even though a routable outcome was available. -/
theorem geocode_missing_fails_no_route_witness :
    (2 ≤ (submittedBatch cexDrafts).length ∧
      ∃ pc ∈ submittedBatch cexDrafts, buildGeocodeResults [] pc = none) ∧
    (confirm 0 cexDrafts (.ok []) (.ok (some 5000))).routeSent = none :=
  ⟨⟨by decide, by decide⟩,
    (geocode_missing_fails_no_route 0 cexDrafts [] (.ok (some 5000))
      (by decide) (by decide)).2.2⟩

theorem validCoords_map_some (l : List Coord) :
    validCoords (l.map fun c => ⟨some c.lat, some c.lng⟩) = l := by
  induction l with
  | nil => rfl
  | cons c rest ih =>
    show validCoords ({ lat := some c.lat, lng := some c.lng } :: rest.map _) = c :: rest
    unfold validCoords at ih ⊢
    rw [List.filterMap_cons]
    dsimp only
    rw [ih]

theorem buildFinalStops_length (off : ℤ) (g : JStr → Option Coord)
    (drafts : List DraftStop) :
    (buildFinalStops off g drafts).length = drafts.length := by
  unfold buildFinalStops
  rw [List.length_map, List.enum_length]

theorem buildFinalStops_stop_order (off : ℤ) (g : JStr → Option Coord)
    (drafts : List DraftStop) (i : ℕ) (h : i < (buildFinalStops off g drafts).length) :
    (buildFinalStops off g drafts)[i].stop_order = i + 1 := by
  unfold buildFinalStops at h ⊢
  rw [List.getElem_map, List.getElem_enum]

theorem buildFinalStops_mem_coords (off : ℤ) (g : JStr → Option Coord)
    (drafts : List DraftStop)
    (hres : ∀ s ∈ drafts, (g (normKey s.postcode)).isSome = true) :
    ∀ st ∈ buildFinalStops off g drafts,
      st.lat.isSome = true ∧ st.lng.isSome = true := by
  intro st hst
  unfold buildFinalStops at hst
  rcases List.mem_map.1 hst with ⟨p, hp, rfl⟩
  have hmem : p.2 ∈ drafts := List.snd_mem_of_mem_enum hp
  dsimp only
  rw [normKey_formatUKPostcode]
  have hg := hres p.2 hmem
  cases hgv : g (normKey p.2.postcode) with
  | none =>
    rw [hgv] at hg
    exact absurd hg (by simp)
  | some c =>
    exact ⟨rfl, rfl⟩

/-- C1: for every draft list of length at least 2 in which every
normalized postcode resolves to a coordinate and a routable outcome with
a nonnegative distance, confirm succeeds with one resolved stop per
draft, stop_order running 1..N contiguously, non-null latitude and
longitude on every stop, and a nonnegative totalMiles. -/
theorem confirm_success_invariants (off : ℤ) (drafts : List DraftStop)
    (items : List GeoItem) (d : ℚ)
    (hlen : 2 ≤ drafts.length)
    (hres : ∀ s ∈ drafts, (buildGeocodeResults items (normKey s.postcode)).isSome = true)
    (hd : 0 ≤ d) :
    ∃ stops : List RouteStopFinal, ∃ miles : ℚ,
      (confirm off drafts (.ok items) (.ok (some d))).result = .ok ⟨stops, some miles⟩ ∧
      stops.length = drafts.length ∧
      (∀ i : ℕ, ∀ h : i < stops.length, (stops.get ⟨i, h⟩).stop_order = i + 1) ∧
      (∀ st ∈ stops, st.lat.isSome = true ∧ st.lng.isSome = true) ∧
      0 ≤ miles := by
  have hkeys : ∀ s ∈ drafts, ¬ normKey s.postcode = [] := by
    intro s hs hc
    have hg := hres s hs
    rw [hc, buildGeocodeResults_nil_key] at hg
    exact absurd hg (by simp)
  have hbatch : submittedBatch drafts = drafts.map fun x => normKey x.postcode := by
    unfold submittedBatch
    apply List.filter_eq_self.2
    intro p hp
    rcases List.mem_map.1 hp with ⟨x, hx, rfl⟩
    simpa using hkeys x hx
  have hblen : 2 ≤ (submittedBatch drafts).length := by
    rw [hbatch, List.length_map]
    exact hlen
  have hmissnil : missingBatch drafts (buildGeocodeResults items) = [] := by
    unfold missingBatch
    apply List.filter_eq_nil_iff.2
    intro pc hpc
    rw [hbatch] at hpc
    rcases List.mem_map.1 hpc with ⟨x, hx, rfl⟩
    have hg := hres x hx
    cases hgv : buildGeocodeResults items (normKey x.postcode) with
    | none => rw [hgv] at hg; exact absurd hg (by simp)
    | some c => simp [hgv]
  have hfind : (buildFinalStops off (buildGeocodeResults items) drafts).find?
      (fun s => s.lat.isNone || s.lng.isNone) = none := by
    rw [List.find?_eq_none]
    intro st hst
    obtain ⟨h1, h2⟩ := buildFinalStops_mem_coords off (buildGeocodeResults items) drafts hres st hst
    cases hl : st.lat with
    | none => rw [hl] at h1; exact absurd h1 (by simp)
    | some a =>
      cases hlg : st.lng with
      | none => rw [hlg] at h2; exact absurd h2 (by simp)
      | some b => simp [hl, hlg]
  have hcoordslen :
      (stopCoords (buildFinalStops off (buildGeocodeResults items) drafts)).length =
        drafts.length := by
    unfold stopCoords
    rw [List.length_map, buildFinalStops_length]
  have hrm : routeMiles
      ((stopCoords (buildFinalStops off (buildGeocodeResults items) drafts)).map
        fun c => ⟨some c.lat, some c.lng⟩) (.ok (some d)) =
      (.okMiles ((jsRound (d / metersPerMile * 10) : ℚ) / 10),
        some (stopCoords (buildFinalStops off (buildGeocodeResults items) drafts))) := by
    unfold routeMiles
    rw [validCoords_map_some]
    rw [if_neg (by rw [List.length_map, hcoordslen]; omega), if_neg (by rw [hcoordslen]; omega)]
  refine ⟨buildFinalStops off (buildGeocodeResults items) drafts,
    (jsRound (d / metersPerMile * 10) : ℚ) / 10, ?_, buildFinalStops_length off _ drafts,
    ?_, buildFinalStops_mem_coords off (buildGeocodeResults items) drafts hres, ?_⟩
  · unfold confirm
    rw [if_neg (by omega)]
    dsimp only
    rw [if_neg (fun hc => hc hmissnil), hfind]
    dsimp only
    rw [hrm]
  · intro i h
    rw [List.get_eq_getElem]
    exact buildFinalStops_stop_order off (buildGeocodeResults items) drafts i h
  · have h1 : (0:ℤ) ≤ jsRound (d / metersPerMile * 10) := by
      unfold jsRound
      apply Int.floor_nonneg.2
      have h2 : (0:ℚ) ≤ d / metersPerMile := div_nonneg hd (by norm_num [metersPerMile])
      have h3 : (0:ℚ) ≤ d / metersPerMile * 10 := mul_nonneg h2 (by norm_num)
      linarith
    have h4 : (0:ℚ) ≤ (jsRound (d / metersPerMile * 10) : ℚ) := by exact_mod_cast h1
    exact div_nonneg h4 (by norm_num)

/-- Witness for C1 at a concrete input: the scenario drafts with both
keys resolving and a 5000 m route confirm successfully with the claimed
invariants. -/
theorem confirm_success_invariants_witness :
    (2 ≤ cexDrafts.length ∧
      (∀ s ∈ cexDrafts, (buildGeocodeResults c1Items (normKey s.postcode)).isSome = true) ∧
      (0:ℚ) ≤ 5000) ∧
    (∃ stops : List RouteStopFinal, ∃ miles : ℚ,
      (confirm 0 cexDrafts (.ok c1Items) (.ok (some 5000))).result = .ok ⟨stops, some miles⟩ ∧
      stops.length = cexDrafts.length ∧
      (∀ i : ℕ, ∀ h : i < stops.length, (stops.get ⟨i, h⟩).stop_order = i + 1) ∧
      (∀ st ∈ stops, st.lat.isSome = true ∧ st.lng.isSome = true) ∧
      0 ≤ miles) :=
  ⟨⟨by decide, by decide, by decide⟩,
    confirm_success_invariants 0 cexDrafts c1Items 5000 (by decide) (by decide) (by decide)⟩

/-- C9: converting a minute-precision local wall-clock string to a UTC
instant at submission (`localDatetimeToIso`) and converting that instant
back under the same timezone offset (`isoToLocalDatetime`) recovers the
original local wall-clock string exactly. -/
theorem localDatetime_roundtrip (off : ℤ) (dt : LocalDT) (h : validLocalDT dt) :
    isoToLocalDatetime off (localDatetimeToIso off dt) = renderLocal dt := by
  unfold isoToLocalDatetime localDatetimeToIso
  rw [sub_add_cancel]
  rw [minutesToFields_fieldsToMinutes dt h]

/-- Witness for C9 at a concrete input: the wall-clock string
`2025-12-21T09:30` survives the UTC round trip under offset +60. -/
theorem localDatetime_roundtrip_witness :
    validLocalDT ⟨2025, 12, 21, 9, 30⟩ ∧
    isoToLocalDatetime 60 (localDatetimeToIso 60 ⟨2025, 12, 21, 9, 30⟩) =
      renderLocal ⟨2025, 12, 21, 9, 30⟩ :=
  ⟨by decide, localDatetime_roundtrip 60 ⟨2025, 12, 21, 9, 30⟩ (by decide)⟩
